import Mathlib

/-!
Verification of the text-acquisition / abstract-extraction core of the
`smart` SDG-classification service (`app.py`).

The Python functions `remove_illegal_chars`, `extract_text_with_fitz`,
`extract_text_from_pdf`, `extract_abstract` and `classify_with_aurora`
are shallowly embedded over `List Char` / `String`.  The two regular
expressions used by `extract_abstract` are embedded by a small
backtracking matcher (`matchP`) whose result list is ordered exactly by
Python `re`'s backtracking priority (alternatives left to right,
quantifiers greedy), so that the head of the list is the match Python
would pick; `searchFrom` scans candidate start positions left to right,
giving `re.search` semantics.

Approximations (documented, inherent to a shallow embedding):
* Python's `\s`, `\w`, `str.split()`, `str.strip()` classes are modelled
  by their ASCII parts (`pyIsSpace`, `isWordChar`); non-ASCII Unicode
  whitespace / word characters are treated as ordinary characters.
* Case-insensitivity is modelled by `Char.toLower`, which agrees with
  Python on ASCII.
* Floating-point scores in `classify_with_aurora` are modelled by `Rat`
  with Python's round-half-to-even; the claims checked here do not
  depend on numeric values.
-/

namespace Smart

/-- ASCII part of Python's whitespace class `\s` (also used by
`str.split()` / `str.strip()`): space, tab, newline, vertical tab,
form feed, carriage return. -/
def pyIsSpace (c : Char) : Bool :=
  c = ' ' || c = '\t' || c = '\n' || c = '\x0b' || c = '\x0c' || c = '\r'

/-- ASCII part of Python's word-character class `\w` (used by `\b`). -/
def isWordChar (c : Char) : Bool :=
  c.isAlphanum || c = '_'

/-- The illegal control-character class of `remove_illegal_chars`:
`[\x00-\x08\x0B\x0C\x0E-\x1F\x7F]` (app.py line 72). -/
def isIllegalChar (c : Char) : Bool :=
  c.toNat ≤ 8 || c.toNat = 11 || c.toNat = 12 ||
    (14 ≤ c.toNat && c.toNat ≤ 31) || c.toNat = 127

/-- `re.sub(r'[\x00-\x08\x0B\x0C\x0E-\x1F\x7F]', "", text)`:
substituting the empty string for every occurrence of a one-character
class removes exactly the characters of the class (app.py line 71). -/
def remove_illegal_chars (s : String) : String :=
  String.mk (s.data.filter (fun c => !isIllegalChar c))

/-- Patterns of the two regular expressions of `extract_abstract`:
class atoms, case-insensitive literals, sequencing, alternation,
greedy option, greedy star over a class, and the zero-width anchors
`^` (multiline), `$` (multiline) and `\b`. -/
inductive Pat where
  | eps : Pat
  | ch (cls : Char → Bool) : Pat
  | litCI (s : List Char) : Pat
  | seq (p q : Pat) : Pat
  | alt (p q : Pat) : Pat
  | opt (p : Pat) : Pat
  | star (cls : Char → Bool) : Pat
  | bol : Pat
  | eol : Pat
  | wordB : Pat

/-- Match a case-insensitive literal at the head of `rest`.
`prev` is the character immediately before the current position
(needed by the zero-width anchors), threaded through every state. -/
def matchLit : List Char → Option Char → List Char → List (Option Char × List Char)
  | [], prev, rest => [(prev, rest)]
  | _ :: _, _, [] => []
  | a :: tl, _, c :: cs =>
      if c.toLower = a.toLower then matchLit tl (some c) cs else []

/-- Advance a state by `k` characters. -/
def consumeN : Option Char → List Char → Nat → Option Char × List Char
  | prev, rest, 0 => (prev, rest)
  | prev, [], _ + 1 => (prev, [])
  | _, c :: cs, k + 1 => consumeN (some c) cs k

/-- All ways a pattern can match a prefix of `rest`, as the list of
resulting states, in Python `re` backtracking priority order:
alternatives left to right, `?` and `*` greedy (longest first). -/
def matchP : Pat → Option Char → List Char → List (Option Char × List Char)
  | .eps, prev, rest => [(prev, rest)]
  | .ch cls, prev, rest =>
      match prev, rest with
      | _, [] => []
      | _, c :: cs => if cls c then [(some c, cs)] else []
  | .litCI s, prev, rest => matchLit s prev rest
  | .seq p q, prev, rest =>
      ((matchP p prev rest).map (fun st => matchP q st.1 st.2)).flatten
  | .alt p q, prev, rest => matchP p prev rest ++ matchP q prev rest
  | .opt p, prev, rest => matchP p prev rest ++ [(prev, rest)]
  | .star cls, prev, rest =>
      ((List.range ((rest.takeWhile cls).length + 1)).reverse).map
        (fun k => consumeN prev rest k)
  | .bol, prev, rest =>
      match prev with
      | none => [(none, rest)]
      | some c => if c = '\n' then [(some c, rest)] else []
  | .eol, prev, rest =>
      match rest with
      | [] => [(prev, [])]
      | c :: _ => if c = '\n' then [(prev, rest)] else []
  | .wordB, prev, rest =>
      let l : Bool := match prev with | none => false | some c => isWordChar c
      let r : Bool := match rest with | [] => false | c :: _ => isWordChar c
      if l != r then [(prev, rest)] else []

/-- `re.search` semantics: try each start position from the left; at the
first position with a match, return `(start, end)` of the match Python's
backtracking would pick (the head of the priority-ordered state list). -/
def searchFrom (pat : Pat) : Option Char → List Char → Nat → Option (Nat × Nat)
  | prev, [], pos =>
      match matchP pat prev [] with
      | st :: _ => some (pos, pos + (0 - st.2.length))
      | [] => none
  | prev, c :: cs, pos =>
      match matchP pat prev (c :: cs) with
      | st :: _ => some (pos, pos + ((c :: cs).length - st.2.length))
      | [] => searchFrom pat (some c) cs (pos + 1)

/-- Leftmost match of `pat` in `l`, as `(start, end)` offsets. -/
def reSearch (pat : Pat) (l : List Char) : Option (Nat × Nat) :=
  searchFrom pat none l 0

/-- Right-nested sequencing of a pattern list. -/
def seqL : List Pat → Pat
  | [] => .eps
  | [p] => p
  | p :: ps => .seq p (seqL ps)

/-- The class `[:\-]`. -/
def colonDashCls (c : Char) : Bool := c = ':' || c = '-'

/-- The class of `.` (any character but newline; no DOTALL flag). -/
def notNLCls (c : Char) : Bool := !(c = '\n')

/-- The class of `\.`. -/
def dotCls (c : Char) : Bool := c = '.'

/-- `(?i)\bA\s*B\s*S\s*T\s*R\s*A\s*C\s*T\b` (app.py line 119). -/
def ABSPAT : Pat :=
  seqL [.wordB, .litCI ['a'], .star pyIsSpace, .litCI ['b'], .star pyIsSpace,
    .litCI ['s'], .star pyIsSpace, .litCI ['t'], .star pyIsSpace,
    .litCI ['r'], .star pyIsSpace, .litCI ['a'], .star pyIsSpace,
    .litCI ['c'], .star pyIsSpace, .litCI ['t'], .wordB]

/-- The literal `Keywords` (lower-cased for `(?i)`). -/
def kwLit : List Char := ['k', 'e', 'y', 'w', 'o', 'r', 'd', 's']

/-- The literal `Kata`. -/
def kataLit : List Char := ['k', 'a', 't', 'a']

/-- The literal `Kunci`. -/
def kunciLit : List Char := ['k', 'u', 'n', 'c', 'i']

/-- The literal `Introduction`. -/
def introLit : List Char := ['i', 'n', 't', 'r', 'o', 'd', 'u', 'c', 't', 'i', 'o', 'n']

/-- The literal `Latar`. -/
def latarLit : List Char := ['l', 'a', 't', 'a', 'r']

/-- The literal `Belakang`. -/
def belakangLit : List Char := ['b', 'e', 'l', 'a', 'k', 'a', 'n', 'g']

/-- The literal `Chapter`. -/
def chapterLit : List Char := ['c', 'h', 'a', 'p', 't', 'e', 'r']

/-- The literal `Bab`. -/
def babLit : List Char := ['b', 'a', 'b']

/-- The literal `Notation`. -/
def notationLit : List Char := ['n', 'o', 't', 'a', 't', 'i', 'o', 'n']

/-- The literal `Background`. -/
def backgroundLit : List Char := ['b', 'a', 'c', 'k', 'g', 'r', 'o', 'u', 'n', 'd']

/-- First alternative of the stop-heading pattern:
`(Keywords|Kata\s*Kunci)\s*[:\-]?\s*(.*)?$` (app.py line 122). -/
def kwArm : Pat :=
  seqL [.alt (.litCI kwLit)
          (seqL [.litCI kataLit, .star pyIsSpace, .litCI kunciLit]),
    .star pyIsSpace, .opt (.ch colonDashCls), .star pyIsSpace,
    .opt (.star notNLCls), .eol]

/-- The alternative `(?:Chapter|Bab)?\s*(?:1|I)\.?\s+(?:Introduction|Latar\s*Belakang)`
inside the stop-heading pattern (app.py line 124). -/
def numberedHd : Pat :=
  seqL [.opt (.alt (.litCI chapterLit) (.litCI babLit)),
    .star pyIsSpace,
    .alt (.litCI ['1']) (.litCI ['i']),
    .opt (.ch dotCls),
    .ch pyIsSpace, .star pyIsSpace,
    .alt (.litCI introLit)
      (seqL [.litCI latarLit, .star pyIsSpace, .litCI belakangLit])]

/-- Second alternative of the stop-heading pattern:
`(Introduction|Latar\s*Belakang|Chapter\s*1|Bab\s*1|…|Notation|Background)`
(app.py lines 123-125), alternatives in source order. -/
def hdArm : Pat :=
  .alt (.litCI introLit)
  (.alt (seqL [.litCI latarLit, .star pyIsSpace, .litCI belakangLit])
  (.alt (seqL [.litCI chapterLit, .star pyIsSpace, .litCI ['1']])
  (.alt (seqL [.litCI babLit, .star pyIsSpace, .litCI ['1']])
  (.alt numberedHd
  (.alt (.litCI notationLit) (.litCI backgroundLit))))))

/-- The full stop-heading pattern `(?im)^(kwArm|hdArm)\s*[:\-]?\s*$`
(app.py lines 120-127). -/
def STOPPAT : Pat :=
  seqL [.bol, .alt kwArm hdArm,
    .star pyIsSpace, .opt (.ch colonDashCls), .star pyIsSpace, .eol]

/-- Python `str.lstrip()` (ASCII whitespace). -/
def pyLstrip (l : List Char) : List Char := l.dropWhile pyIsSpace

/-- Python `str.rstrip()` (ASCII whitespace). -/
def pyRstrip (l : List Char) : List Char := (l.reverse.dropWhile pyIsSpace).reverse

/-- Python `str.strip()` (ASCII whitespace). -/
def pyStrip (l : List Char) : List Char := pyRstrip (pyLstrip l)

/-- Python `str.split()` with no separator: split on whitespace runs,
discarding empty fragments.  Written with explicit fuel so that it is
structurally recursive (hence kernel-computable); `pySplit` instantiates
the fuel with the list length, which every step stays below. -/
def pySplitF : Nat → List Char → List (List Char)
  | 0, _ => []
  | _ + 1, [] => []
  | fuel + 1, c :: cs =>
      if pyIsSpace c then pySplitF fuel cs
      else (c :: cs.takeWhile (fun d => !pyIsSpace d)) ::
        pySplitF fuel (cs.dropWhile (fun d => !pyIsSpace d))

/-- Python `str.split()` with no separator. -/
def pySplit (l : List Char) : List (List Char) := pySplitF l.length l

/-- Python `sep.join(words)` for a one-character separator. -/
def joinChar (sep : Char) : List (List Char) → List Char
  | [] => []
  | [w] => w
  | w :: ws => w ++ sep :: joinChar sep ws

/-- Python `" ".join(words)`. -/
def joinSp (ws : List (List Char)) : List Char := joinChar ' ' ws

/-- Python `l[-n:]`: the last `n` elements (all of `l` if shorter). -/
def takeLast {α : Type} (n : Nat) (l : List α) : List α :=
  l.drop (l.length - n)

/-- Number of whitespace-delimited words of a string. -/
def wordCount (s : String) : Nat := (pySplit s.data).length

/-- Index (from the start of `l`) of the last newline in `l`, if any. -/
def lastNL : List Char → Option Nat
  | [] => none
  | c :: cs =>
      match lastNL cs with
      | some k => some (k + 1)
      | none => if c = '\n' then some 0 else none

/-- Match of `\n\s*\n` at the head of `l`.  Greedy `\s*` with the final
`\n` forced means: the first char is a newline and the match extends to
the last newline of the maximal whitespace run that follows.  Returns
`some j` when the match has length `j + 2`. -/
def blankMatchAt : List Char → Option Nat
  | [] => none
  | c :: cs =>
      if c = '\n' then lastNL (cs.takeWhile pyIsSpace) else none

/-- `list(re.finditer(r'\n\s*\n', pre))`: scan left to right, taking
non-overlapping matches; accumulate the end offset of the last match.
Fuel-structured for kernel computability; every step consumes at least
one character, so fuel `l.length` is enough. -/
def lastBlankEndF : Nat → List Char → Nat → Option Nat → Option Nat
  | 0, _, _, acc => acc
  | _ + 1, [], _, acc => acc
  | fuel + 1, c :: cs, pos, acc =>
      match blankMatchAt (c :: cs) with
      | some j => lastBlankEndF fuel (cs.drop (j + 1)) (pos + j + 2) (some (pos + j + 2))
      | none => lastBlankEndF fuel cs (pos + 1) acc

/-- End offset of the last `\n\s*\n` match in `l` (`paras[-1].end()`
in app.py line 143), `none` when there is no match. -/
def lastBlankEnd (l : List Char) : Option Nat :=
  lastBlankEndF l.length l 0 none

/-- `extract_abstract` (app.py lines 118-147) over `List Char`:
1. find `(?i)\bA\s*B\s*S\s*T\s*R\s*A\s*C\s*T\b`; if found with end `s`,
   search `text[s:]` for the stop-heading pattern: found at `e` →
   `text[s:s+e].strip()`, else first 300 words of `text[s:]`;
2. otherwise search the whole text for a stop heading: found at `e` →
   `pre = text[:e].rstrip()`; last `\n\s*\n` match ending at `k` →
   `pre[k:].strip()`, no match → last 300 words of `pre`;
3. no marker and no stop heading → first 300 words of the text. -/
def extractAbstractL (text : List Char) : List Char :=
  match reSearch ABSPAT text with
  | some am =>
      match reSearch STOPPAT (text.drop am.2) with
      | some sm => pyStrip ((text.drop am.2).take sm.1)
      | none => joinSp ((pySplit (text.drop am.2)).take 300)
  | none =>
      match reSearch STOPPAT text with
      | some sm =>
          match lastBlankEnd (pyRstrip (text.take sm.1)) with
          | some k => pyStrip ((pyRstrip (text.take sm.1)).drop k)
          | none => joinSp (takeLast 300 (pySplit (pyRstrip (text.take sm.1))))
      | none => joinSp ((pySplit text).take 300)

/-- `extract_abstract` (app.py lines 118-147). -/
def extract_abstract (s : String) : String :=
  String.mk (extractAbstractL s.data)

/-- A PDF document, for the text-acquisition path.  `pageTexts` are the
per-page text-layer fragments read by fitz (`page.get_text("text")`).
`pageOCRTexts` is *modelled from the spec*: the per-page OCR output the
spec's fallback path would produce — `src/app.py` contains no OCR code,
the field only serves to state spec claims about the (absent) fallback. -/
structure PDFDocument where
  pageTexts : List String
  pageOCRTexts : List String

/-- `extract_text_with_fitz` (app.py lines 74-76):
`"\n".join(page.get_text("text") for page in doc)`. -/
def extract_text_with_fitz (doc : PDFDocument) : String :=
  String.mk (joinChar '\n' (doc.pageTexts.map String.data))

/-- `extract_text_from_pdf` (app.py lines 78-80): sanitize the fitz
text-layer extraction.  Note: no length test and no OCR fallback. -/
def extract_text_from_pdf (doc : PDFDocument) : String :=
  remove_illegal_chars (extract_text_with_fitz doc)

/-- Modelled from the spec: the OCR fallback output, "concatenate
per-page OCR text with newline separators" (spec §4.1).  No OCR path
exists in `src/app.py`; this definition only lets the spec's Text
Acquisition decision rule be stated. -/
def ocr_fallback_output (doc : PDFDocument) : String :=
  String.mk (joinChar '\n' (doc.pageOCRTexts.map String.data))

/-- One entry of the Aurora response's `predictions` array:
`p["sdg"]["label"]` and `p["prediction"]`. -/
structure AuroraPrediction where
  sdgLabel : String
  prediction : Rat

/-- The decoded Aurora HTTP response: status code and
`response.json().get("predictions", [])`. -/
structure AuroraResponse where
  status_code : Nat
  predictions : List AuroraPrediction

/-- Outcome of `requests.post` in `classify_with_aurora`: either the
request (or response decoding) raised an exception, or a response was
obtained. -/
inductive PostOutcome where
  | exn : PostOutcome
  | ok (response : AuroraResponse) : PostOutcome

/-- Python `round` to the nearest integer, ties to even. -/
def roundHalfEven (q : Rat) : Int :=
  if q - (⌊q⌋ : Rat) < 1 / 2 then ⌊q⌋
  else if (1 : Rat) / 2 < q - (⌊q⌋ : Rat) then ⌊q⌋ + 1
  else if ⌊q⌋ % 2 = 0 then ⌊q⌋ else ⌊q⌋ + 1

/-- Python `round(x, 2)` (over `Rat`; float representation not modelled). -/
def pyRound2 (x : Rat) : Rat := (roundHalfEven (x * 100) : Rat) / 100

/-- `classify_with_aurora` (app.py lines 149-175) as a function of the
POST outcome: on an exception the `except` branch returns `{}`; on a
response with status 200 it builds
`{p["sdg"]["label"]: round(p["prediction"] * 100, 2) for p in predictions}`
(modelled as the association list in array order); on any other status
it returns `{}`. -/
def classify_with_aurora (outcome : PostOutcome) : List (String × Rat) :=
  match outcome with
  | .exn => []
  | .ok r =>
      if r.status_code = 200 then
        r.predictions.map (fun p => (p.sdgLabel, pyRound2 (p.prediction * 100)))
      else []

/-- The claim C4's own notion of a blank-line boundary, written from the
spec's words ("two or more consecutive newlines"), to be compared with
the code's `\n\s*\n`. -/
def specDoubleNewline : List Char → Bool
  | [] => false
  | [_] => false
  | a :: b :: rest => (a = '\n' && b = '\n') || specDoubleNewline (b :: rest)

/-! ### Helper lemmas: `takeWhile` / `dropWhile` -/

theorem length_dropWhile_le' (p : Char → Bool) (l : List Char) :
    (l.dropWhile p).length ≤ l.length := by
  induction l with
  | nil => simp [List.dropWhile]
  | cons c cs ih =>
    by_cases h : p c
    · simp only [List.dropWhile, h]
      exact Nat.le_trans ih (Nat.le_succ _)
    · simp [List.dropWhile, h]

theorem takeWhile_eq_self_of_all (p : Char → Bool) (l : List Char)
    (h : ∀ c ∈ l, p c = true) : l.takeWhile p = l := by
  induction l with
  | nil => rfl
  | cons c cs ih =>
    have hc : p c = true := h c (by simp)
    simp only [List.takeWhile, hc]
    exact congrArg (c :: ·) (ih (fun d hd => h d (by simp [hd])))

theorem dropWhile_eq_nil_of_all (p : Char → Bool) (l : List Char)
    (h : ∀ c ∈ l, p c = true) : l.dropWhile p = [] := by
  induction l with
  | nil => rfl
  | cons c cs ih =>
    have hc : p c = true := h c (by simp)
    simp only [List.dropWhile, hc]
    exact ih (fun d hd => h d (by simp [hd]))

theorem takeWhile_append_of_all (p : Char → Bool) (w r : List Char)
    (h : ∀ c ∈ w, p c = true) :
    (w ++ r).takeWhile p = w ++ r.takeWhile p := by
  induction w with
  | nil => rfl
  | cons c cs ih =>
    have hc : p c = true := h c (by simp)
    simp only [List.cons_append, List.takeWhile, hc]
    exact congrArg (c :: ·) (ih (fun d hd => h d (by simp [hd])))

theorem dropWhile_append_of_all (p : Char → Bool) (w r : List Char)
    (h : ∀ c ∈ w, p c = true) :
    (w ++ r).dropWhile p = r.dropWhile p := by
  induction w with
  | nil => rfl
  | cons c cs ih =>
    have hc : p c = true := h c (by simp)
    simp only [List.cons_append, List.dropWhile, hc]
    exact ih (fun d hd => h d (by simp [hd]))

theorem dropWhile_dropWhile (p : Char → Bool) (l : List Char) :
    (l.dropWhile p).dropWhile p = l.dropWhile p := by
  induction l with
  | nil => rfl
  | cons c cs ih =>
    by_cases h : p c
    · simpa [List.dropWhile, h] using ih
    · simp [List.dropWhile, h]

theorem dropWhile_append_singleton (p : Char → Bool) (a : List Char) (c : Char)
    (hc : p c = false) :
    (a ++ [c]).dropWhile p = a.dropWhile p ++ [c] := by
  induction a with
  | nil => simp [List.dropWhile, hc]
  | cons d ds ih =>
    by_cases h : p d
    · simpa [List.dropWhile, h] using ih
    · simp [List.dropWhile, h]

/-! ### Helper lemmas: `pySplit` and `joinSp` -/

theorem pySplitF_mono : ∀ (f₁ f₂ : Nat) (l : List Char),
    l.length ≤ f₁ → l.length ≤ f₂ → pySplitF f₁ l = pySplitF f₂ l := by
  intro f₁
  induction f₁ with
  | zero =>
    intro f₂ l h1 _
    have hl : l = [] := List.eq_nil_of_length_eq_zero (Nat.le_zero.mp h1)
    subst hl
    cases f₂ <;> rfl
  | succ f ih =>
    intro f₂ l h1 h2
    cases l with
    | nil => cases f₂ <;> rfl
    | cons c cs =>
      cases f₂ with
      | zero => simp at h2
      | succ g =>
        have h1' : cs.length ≤ f := by simp at h1; omega
        have h2' : cs.length ≤ g := by simp at h2; omega
        simp only [pySplitF]
        by_cases hc : pyIsSpace c = true
        · rw [if_pos hc, if_pos hc]
          exact ih g cs h1' h2'
        · rw [if_neg hc, if_neg hc]
          congr 1
          exact ih g _ (Nat.le_trans (length_dropWhile_le' _ cs) h1')
            (Nat.le_trans (length_dropWhile_le' _ cs) h2')

theorem pySplit_cons_space (c : Char) (cs : List Char) (hc : pyIsSpace c = true) :
    pySplit (c :: cs) = pySplit cs := by
  show pySplitF (cs.length + 1) (c :: cs) = pySplitF cs.length cs
  simp [pySplitF, hc]

theorem pySplit_cons_word (c : Char) (cs : List Char) (hc : pyIsSpace c = false) :
    pySplit (c :: cs) =
      (c :: cs.takeWhile (fun d => !pyIsSpace d)) ::
        pySplit (cs.dropWhile (fun d => !pyIsSpace d)) := by
  show pySplitF (cs.length + 1) (c :: cs) = _
  simp only [pySplitF, hc, Bool.false_eq_true, if_false]
  congr 1
  exact pySplitF_mono cs.length _ _ (length_dropWhile_le' _ cs) (Nat.le_refl _)

theorem pySplitF_good : ∀ (f : Nat) (l : List Char), l.length ≤ f →
    ∀ w ∈ pySplitF f l, w ≠ [] ∧ ∀ c ∈ w, pyIsSpace c = false := by
  intro f
  induction f with
  | zero => intro l _ w hw; simp [pySplitF] at hw
  | succ g ih =>
    intro l h w hw
    cases l with
    | nil => simp [pySplitF] at hw
    | cons c cs =>
      have hcs : cs.length ≤ g := by simp at h; omega
      by_cases hc : pyIsSpace c = true
      · rw [pySplitF, if_pos hc] at hw
        exact ih cs hcs w hw
      · rw [pySplitF, if_neg hc] at hw
        rcases List.mem_cons.mp hw with rfl | hw'
        · refine ⟨by simp, ?_⟩
          intro d hd
          rcases List.mem_cons.mp hd with rfl | hd'
          · simpa using hc
          · simpa using List.mem_takeWhile_imp hd'
        · exact ih _ (Nat.le_trans (length_dropWhile_le' _ cs) hcs) w hw'

theorem pySplit_good (l : List Char) :
    ∀ w ∈ pySplit l, w ≠ [] ∧ ∀ c ∈ w, pyIsSpace c = false :=
  pySplitF_good l.length l (Nat.le_refl _)

theorem pySplit_of_word (w : List Char) (hne : w ≠ [])
    (hw : ∀ c ∈ w, pyIsSpace c = false) : pySplit w = [w] := by
  cases w with
  | nil => exact absurd rfl hne
  | cons c cs =>
    have hc : pyIsSpace c = false := hw c (by simp)
    have hall : ∀ d ∈ cs, (fun d => !pyIsSpace d) d = true := by
      intro d hd
      simp [hw d (List.mem_cons_of_mem c hd)]
    rw [pySplit_cons_word c cs hc,
      takeWhile_eq_self_of_all _ cs hall, dropWhile_eq_nil_of_all _ cs hall]
    rfl

theorem pySplit_word_append (w r : List Char) (hne : w ≠ [])
    (hw : ∀ c ∈ w, pyIsSpace c = false) :
    pySplit (w ++ ' ' :: r) = w :: pySplit r := by
  cases w with
  | nil => exact absurd rfl hne
  | cons c cs =>
    have hc : pyIsSpace c = false := hw c (by simp)
    have hall : ∀ d ∈ cs, (fun d => !pyIsSpace d) d = true := by
      intro d hd
      simp [hw d (List.mem_cons_of_mem c hd)]
    have hsp : (fun d => !pyIsSpace d) ' ' = false := by
      simp [pyIsSpace]
    rw [List.cons_append, pySplit_cons_word c _ hc,
      takeWhile_append_of_all _ cs _ hall, dropWhile_append_of_all _ cs _ hall]
    have ht : (' ' :: r).takeWhile (fun d => !pyIsSpace d) = [] := by
      simp [List.takeWhile, hsp]
    have hd : (' ' :: r).dropWhile (fun d => !pyIsSpace d) = ' ' :: r := by
      simp [List.dropWhile, hsp]
    rw [ht, hd, List.append_nil, pySplit_cons_space ' ' r (by simp [pyIsSpace])]

theorem pySplit_joinSp (ws : List (List Char))
    (h : ∀ w ∈ ws, w ≠ [] ∧ ∀ c ∈ w, pyIsSpace c = false) :
    pySplit (joinSp ws) = ws := by
  induction ws with
  | nil => rfl
  | cons w ws ih =>
    cases ws with
    | nil => exact pySplit_of_word w (h w (by simp)).1 (h w (by simp)).2
    | cons w2 ws2 =>
      have hj : joinSp (w :: w2 :: ws2) = w ++ ' ' :: joinSp (w2 :: ws2) := rfl
      rw [hj, pySplit_word_append w _ (h w (by simp)).1 (h w (by simp)).2,
        ih (fun x hx => h x (List.mem_cons_of_mem w hx))]

/-! ### Helper lemmas: `pyStrip` -/

theorem dropWhile_head_or_nil (p : Char → Bool) (l : List Char) :
    l.dropWhile p = [] ∨ ∃ c cs, l.dropWhile p = c :: cs ∧ p c = false := by
  induction l with
  | nil => exact Or.inl rfl
  | cons c cs ih =>
    by_cases h : p c = true
    · simpa [List.dropWhile, h] using ih
    · exact Or.inr ⟨c, cs, by simp [List.dropWhile, h], by simpa using h⟩

theorem pyRstrip_pyRstrip (l : List Char) : pyRstrip (pyRstrip l) = pyRstrip l := by
  simp [pyRstrip, List.reverse_reverse, dropWhile_dropWhile]

theorem pyRstrip_cons_keep (c : Char) (cs : List Char) (hc : pyIsSpace c = false) :
    pyRstrip (c :: cs) = c :: pyRstrip cs := by
  simp only [pyRstrip, List.reverse_cons]
  rw [dropWhile_append_singleton _ _ _ hc]
  simp

theorem pyLstrip_pyRstrip_pyLstrip (l : List Char) :
    pyLstrip (pyRstrip (pyLstrip l)) = pyRstrip (pyLstrip l) := by
  rcases dropWhile_head_or_nil pyIsSpace l with h | ⟨c, cs, h, hc⟩
  · have h' : pyLstrip l = [] := h
    rw [h']
    rfl
  · have h' : pyLstrip l = c :: cs := h
    rw [h', pyRstrip_cons_keep c cs hc, pyLstrip, List.dropWhile]
    simp [hc]

theorem pyStrip_pyStrip (l : List Char) : pyStrip (pyStrip l) = pyStrip l := by
  rw [pyStrip, pyStrip, pyLstrip_pyRstrip_pyLstrip, pyRstrip_pyRstrip]

theorem joinSp_ne_nil (ws : List (List Char)) (hne : ws ≠ [])
    (h : ∀ w ∈ ws, w ≠ []) : joinSp ws ≠ [] := by
  cases ws with
  | nil => exact absurd rfl hne
  | cons w ws =>
    cases ws with
    | nil => exact h w (by simp)
    | cons w2 ws2 =>
      have hj : joinSp (w :: w2 :: ws2) = w ++ ' ' :: joinSp (w2 :: ws2) := rfl
      rw [hj]
      cases hw : w with
      | nil => exact absurd hw (h w (by simp))
      | cons c cs => simp

theorem joinSp_head_good (ws : List (List Char))
    (h : ∀ w ∈ ws, w ≠ [] ∧ ∀ c ∈ w, pyIsSpace c = false) :
    joinSp ws = [] ∨ ∃ c cs, joinSp ws = c :: cs ∧ pyIsSpace c = false := by
  cases ws with
  | nil => exact Or.inl rfl
  | cons w ws =>
    cases hw : w with
    | nil => exact absurd hw (h w (by simp)).1
    | cons c cs =>
      have hc : pyIsSpace c = false := (h w (by simp)).2 c (by rw [hw]; simp)
      cases ws with
      | nil => exact Or.inr ⟨c, cs, by rw [← hw]; rfl, hc⟩
      | cons w2 ws2 =>
        exact Or.inr ⟨c, cs ++ ' ' :: joinSp (w2 :: ws2), rfl, hc⟩

theorem joinSp_rev_head_good (ws : List (List Char))
    (h : ∀ w ∈ ws, w ≠ [] ∧ ∀ c ∈ w, pyIsSpace c = false) :
    joinSp ws = [] ∨
      ∃ c cs, (joinSp ws).reverse = c :: cs ∧ pyIsSpace c = false := by
  induction ws with
  | nil => exact Or.inl rfl
  | cons w ws ih =>
    cases ws with
    | nil =>
      refine Or.inr ?_
      cases hrw : w.reverse with
      | nil =>
        exact absurd (by simpa using congrArg List.reverse hrw) (h w (by simp)).1
      | cons c cs =>
        have hcw : c ∈ w := by
          have : c ∈ w.reverse := by rw [hrw]; simp
          simpa using this
        exact ⟨c, cs, hrw, (h w (by simp)).2 c hcw⟩
    | cons w2 ws2 =>
      rcases ih (fun x hx => h x (List.mem_cons_of_mem w hx)) with hnil | ⟨c, cs, hrev, hc⟩
      · exact absurd hnil
          (joinSp_ne_nil _ (by simp) (fun x hx => (h x (List.mem_cons_of_mem w hx)).1))
      · refine Or.inr ⟨c, cs ++ ' ' :: w.reverse, ?_, hc⟩
        have hj : joinSp (w :: w2 :: ws2) = w ++ ' ' :: joinSp (w2 :: ws2) := rfl
        rw [hj, List.reverse_append, List.reverse_cons, hrev]
        simp

theorem pyStrip_joinSp (ws : List (List Char))
    (h : ∀ w ∈ ws, w ≠ [] ∧ ∀ c ∈ w, pyIsSpace c = false) :
    pyStrip (joinSp ws) = joinSp ws := by
  rcases joinSp_head_good ws h with hnil | ⟨c, cs, hj, hc⟩
  · rw [hnil]
    rfl
  · have hl : pyLstrip (joinSp ws) = joinSp ws := by
      rw [pyLstrip, hj, List.dropWhile]
      simp [hc]
    rw [pyStrip, hl]
    rcases joinSp_rev_head_good ws h with hnil | ⟨d, ds, hrev, hd⟩
    · rw [hnil]
      rfl
    · rw [pyRstrip, hrev, List.dropWhile]
      simp only [hd, Bool.false_eq_true, if_false]
      rw [← hrev, List.reverse_reverse]

/-! ### Helper lemmas: the two patterns have no match in all-whitespace text -/

theorem pyIsSpace_cases {c : Char} (h : pyIsSpace c = true) :
    c = ' ' ∨ c = '\t' ∨ c = '\n' ∨ c = '\x0b' ∨ c = '\x0c' ∨ c = '\r' := by
  simp [pyIsSpace] at h
  tauto

theorem space_toLower {c : Char} (h : pyIsSpace c = true) : c.toLower = c := by
  rcases pyIsSpace_cases h with h | h | h | h | h | h <;> subst h <;> decide

theorem space_not_word {c : Char} (h : pyIsSpace c = true) : isWordChar c = false := by
  rcases pyIsSpace_cases h with h | h | h | h | h | h <;> subst h <;> decide

/-- Acceptable previous-character contexts while scanning all-whitespace text. -/
def prevOk (prev : Option Char) : Prop :=
  prev = none ∨ ∃ c, prev = some c ∧ pyIsSpace c = true

theorem flatten_map_nil {α β : Type} (l : List α) (f : α → List β)
    (h : ∀ x ∈ l, f x = []) : (l.map f).flatten = [] := by
  induction l with
  | nil => rfl
  | cons x xs ih => simp [h x (by simp), ih (fun y hy => h y (by simp [hy]))]

theorem consumeN_snd (prev : Option Char) (rest : List Char) (k : Nat) :
    (consumeN prev rest k).2 = rest.drop k := by
  induction k generalizing prev rest with
  | zero => cases rest <;> rfl
  | succ n ih =>
    cases rest with
    | nil => simp [consumeN]
    | cons c cs => simp [consumeN, ih]

theorem matchLit_allspace (a : Char) (tl : List Char) (prev : Option Char)
    (rest : List Char) (hrest : ∀ c ∈ rest, pyIsSpace c = true)
    (ha : pyIsSpace a.toLower = false) :
    matchLit (a :: tl) prev rest = [] := by
  cases rest with
  | nil => rfl
  | cons c cs =>
    have hc : pyIsSpace c = true := hrest c (by simp)
    by_cases he : c.toLower = a.toLower
    · exfalso
      have h1 : c = a.toLower := by rw [space_toLower hc] at he; exact he
      rw [← h1] at ha
      simp [ha] at hc
    · simp [matchLit, he]

theorem matchP_lit_allspace (s : List Char) (a : Char) (tl : List Char)
    (hs : s = a :: tl) (prev : Option Char) (rest : List Char)
    (hrest : ∀ c ∈ rest, pyIsSpace c = true)
    (ha : pyIsSpace a.toLower = false) :
    matchP (.litCI s) prev rest = [] := by
  subst hs
  exact matchLit_allspace a tl prev rest hrest ha

theorem matchP_alt_eq (p q : Pat) (prev : Option Char) (rest : List Char) :
    matchP (.alt p q) prev rest = matchP p prev rest ++ matchP q prev rest := rfl

theorem matchP_seq_eq (p q : Pat) (prev : Option Char) (rest : List Char) :
    matchP (.seq p q) prev rest =
      ((matchP p prev rest).map (fun st => matchP q st.1 st.2)).flatten := rfl

theorem matchP_opt_eq (p : Pat) (prev : Option Char) (rest : List Char) :
    matchP (.opt p) prev rest = matchP p prev rest ++ [(prev, rest)] := rfl

theorem matchP_seq_nil (p q : Pat) (prev : Option Char) (rest : List Char)
    (h : matchP p prev rest = []) : matchP (.seq p q) prev rest = [] := by
  rw [matchP_seq_eq, h]
  rfl

theorem matchP_seq_star_ws_nil (q : Pat) (prev : Option Char) (rest : List Char)
    (hrest : ∀ c ∈ rest, pyIsSpace c = true)
    (hq : ∀ (pr : Option Char) (rs : List Char), (∀ c ∈ rs, pyIsSpace c = true) →
      matchP q pr rs = []) :
    matchP (.seq (.star pyIsSpace) q) prev rest = [] := by
  simp only [matchP]
  apply flatten_map_nil
  intro st hst
  rcases List.mem_map.mp hst with ⟨k, _, rfl⟩
  apply hq
  rw [consumeN_snd]
  exact fun c hc => hrest c (List.drop_subset _ _ hc)

theorem matchP_ABSPAT_allspace (prev : Option Char) (rest : List Char)
    (hp : prevOk prev) (hrest : ∀ c ∈ rest, pyIsSpace c = true) :
    matchP ABSPAT prev rest = [] := by
  have hw : matchP .wordB prev rest = [] := by
    rcases hp with h | ⟨c, hc, hcs⟩
    · subst h
      cases rest with
      | nil => rfl
      | cons d ds => simp [matchP, space_not_word (hrest d (by simp))]
    · subst hc
      cases rest with
      | nil => simp [matchP, space_not_word hcs]
      | cons d ds =>
        simp [matchP, space_not_word hcs, space_not_word (hrest d (by simp))]
  show matchP (.seq .wordB _) prev rest = []
  exact matchP_seq_nil _ _ _ _ hw

theorem matchP_kwArm_allspace (prev : Option Char) (rest : List Char)
    (hrest : ∀ c ∈ rest, pyIsSpace c = true) :
    matchP kwArm prev rest = [] := by
  show matchP (.seq (.alt (.litCI kwLit) (.seq (.litCI kataLit) _)) _) prev rest = []
  apply matchP_seq_nil
  rw [matchP_alt_eq,
    matchP_lit_allspace kwLit 'k' _ rfl prev rest hrest (by decide),
    matchP_seq_nil _ _ prev rest
      (matchP_lit_allspace kataLit 'k' _ rfl prev rest hrest (by decide))]
  rfl

theorem matchP_numberedHd_allspace (prev : Option Char) (rest : List Char)
    (hrest : ∀ c ∈ rest, pyIsSpace c = true) :
    matchP numberedHd prev rest = [] := by
  have hdigit : ∀ (pr : Option Char) (rs : List Char),
      (∀ c ∈ rs, pyIsSpace c = true) →
      matchP (.seq (.alt (.litCI ['1']) (.litCI ['i']))
        (seqL [.opt (.ch dotCls), .ch pyIsSpace, .star pyIsSpace,
          .alt (.litCI introLit)
            (seqL [.litCI latarLit, .star pyIsSpace, .litCI belakangLit])]))
        pr rs = [] := by
    intro pr rs hrs
    apply matchP_seq_nil
    rw [matchP_alt_eq,
      matchP_lit_allspace ['1'] '1' [] rfl pr rs hrs (by decide),
      matchP_lit_allspace ['i'] 'i' [] rfl pr rs hrs (by decide)]
    rfl
  have hopt : matchP (.opt (.alt (.litCI chapterLit) (.litCI babLit)))
      prev rest = [(prev, rest)] := by
    rw [matchP_opt_eq, matchP_alt_eq,
      matchP_lit_allspace chapterLit 'c' _ rfl prev rest hrest (by decide),
      matchP_lit_allspace babLit 'b' _ rfl prev rest hrest (by decide)]
    rfl
  show matchP (.seq (.opt (.alt (.litCI chapterLit) (.litCI babLit)))
    (.seq (.star pyIsSpace) _)) prev rest = []
  rw [matchP_seq_eq, hopt]
  simp only [List.map_cons, List.map_nil, List.flatten_cons, List.flatten_nil,
    List.append_nil]
  exact matchP_seq_star_ws_nil _ prev rest hrest hdigit

theorem matchP_hdArm_allspace (prev : Option Char) (rest : List Char)
    (hrest : ∀ c ∈ rest, pyIsSpace c = true) :
    matchP hdArm prev rest = [] := by
  show matchP (.alt (.litCI introLit)
    (.alt (.seq (.litCI latarLit) (.seq (.star pyIsSpace) (.litCI belakangLit)))
    (.alt (.seq (.litCI chapterLit) (.seq (.star pyIsSpace) (.litCI ['1'])))
    (.alt (.seq (.litCI babLit) (.seq (.star pyIsSpace) (.litCI ['1'])))
    (.alt numberedHd (.alt (.litCI notationLit) (.litCI backgroundLit)))))))
    prev rest = []
  rw [matchP_alt_eq, matchP_alt_eq, matchP_alt_eq, matchP_alt_eq,
    matchP_alt_eq, matchP_alt_eq,
    matchP_lit_allspace introLit 'i' _ rfl prev rest hrest (by decide),
    matchP_seq_nil _ _ prev rest
      (matchP_lit_allspace latarLit 'l' _ rfl prev rest hrest (by decide)),
    matchP_seq_nil _ _ prev rest
      (matchP_lit_allspace chapterLit 'c' _ rfl prev rest hrest (by decide)),
    matchP_seq_nil _ _ prev rest
      (matchP_lit_allspace babLit 'b' _ rfl prev rest hrest (by decide)),
    matchP_numberedHd_allspace prev rest hrest,
    matchP_lit_allspace notationLit 'n' _ rfl prev rest hrest (by decide),
    matchP_lit_allspace backgroundLit 'b' _ rfl prev rest hrest (by decide)]
  rfl

theorem matchP_STOPPAT_allspace (prev : Option Char) (rest : List Char)
    (_ : prevOk prev) (hrest : ∀ c ∈ rest, pyIsSpace c = true) :
    matchP STOPPAT prev rest = [] := by
  have hbol : ∀ st ∈ matchP .bol prev rest, st = (prev, rest) := by
    cases prev with
    | none => intro st hst; simpa [matchP] using hst
    | some c =>
      intro st hst
      by_cases h : c = '\n'
      · subst h
        simpa [matchP] using hst
      · simp [matchP, h] at hst
  have harm : matchP (.alt kwArm hdArm) prev rest = [] := by
    rw [matchP_alt_eq, matchP_kwArm_allspace prev rest hrest,
      matchP_hdArm_allspace prev rest hrest]
    rfl
  have htail : matchP (.seq (.alt kwArm hdArm)
      (seqL [.star pyIsSpace, .opt (.ch colonDashCls), .star pyIsSpace, .eol]))
      prev rest = [] := matchP_seq_nil _ _ _ _ harm
  show matchP (.seq .bol (.seq (.alt kwArm hdArm)
    (seqL [.star pyIsSpace, .opt (.ch colonDashCls), .star pyIsSpace, .eol])))
    prev rest = []
  rw [matchP_seq_eq]
  apply flatten_map_nil
  intro st hst
  rw [hbol st hst]
  exact htail

theorem searchFrom_none (pat : Pat)
    (H : ∀ pr rs, prevOk pr → (∀ c ∈ rs, pyIsSpace c = true) → matchP pat pr rs = []) :
    ∀ (rest : List Char) (prev : Option Char) (pos : Nat), prevOk prev →
      (∀ c ∈ rest, pyIsSpace c = true) → searchFrom pat prev rest pos = none := by
  intro rest
  induction rest with
  | nil =>
    intro prev pos hp hr
    simp [searchFrom, H prev [] hp (by simp)]
  | cons c cs ih =>
    intro prev pos hp hr
    have h0 : matchP pat prev (c :: cs) = [] := H _ _ hp hr
    simp only [searchFrom, h0]
    exact ih (some c) (pos + 1) (Or.inr ⟨c, rfl, hr c (by simp)⟩)
      (fun d hd => hr d (List.mem_cons_of_mem c hd))

theorem reSearch_ABSPAT_allspace (l : List Char)
    (h : ∀ c ∈ l, pyIsSpace c = true) : reSearch ABSPAT l = none :=
  searchFrom_none ABSPAT matchP_ABSPAT_allspace l none 0 (Or.inl rfl) h

theorem reSearch_STOPPAT_allspace (l : List Char)
    (h : ∀ c ∈ l, pyIsSpace c = true) : reSearch STOPPAT l = none :=
  searchFrom_none STOPPAT matchP_STOPPAT_allspace l none 0 (Or.inl rfl) h

theorem pySplitF_allspace : ∀ (f : Nat) (l : List Char),
    (∀ c ∈ l, pyIsSpace c = true) → pySplitF f l = [] := by
  intro f
  induction f with
  | zero => intro l _; rfl
  | succ g ih =>
    intro l h
    cases l with
    | nil => rfl
    | cons c cs =>
      rw [pySplitF, if_pos (h c (by simp))]
      exact ih cs (fun d hd => h d (List.mem_cons_of_mem c hd))

/-! ### Branch equations of `extractAbstractL` -/

theorem extractAbstractL_marker_stop (t : List Char) (am sm : Nat × Nat)
    (h1 : reSearch ABSPAT t = some am)
    (h2 : reSearch STOPPAT (t.drop am.2) = some sm) :
    extractAbstractL t = pyStrip ((t.drop am.2).take sm.1) := by
  simp only [extractAbstractL, h1, h2]

theorem extractAbstractL_marker_words (t : List Char) (am : Nat × Nat)
    (h1 : reSearch ABSPAT t = some am)
    (h2 : reSearch STOPPAT (t.drop am.2) = none) :
    extractAbstractL t = joinSp ((pySplit (t.drop am.2)).take 300) := by
  simp only [extractAbstractL, h1, h2]

theorem extractAbstractL_noMarker_para (t : List Char) (sm : Nat × Nat) (k : Nat)
    (h1 : reSearch ABSPAT t = none)
    (h2 : reSearch STOPPAT t = some sm)
    (h3 : lastBlankEnd (pyRstrip (t.take sm.1)) = some k) :
    extractAbstractL t = pyStrip ((pyRstrip (t.take sm.1)).drop k) := by
  simp only [extractAbstractL, h1, h2, h3]

theorem extractAbstractL_noMarker_words (t : List Char) (sm : Nat × Nat)
    (h1 : reSearch ABSPAT t = none)
    (h2 : reSearch STOPPAT t = some sm)
    (h3 : lastBlankEnd (pyRstrip (t.take sm.1)) = none) :
    extractAbstractL t = joinSp (takeLast 300 (pySplit (pyRstrip (t.take sm.1)))) := by
  simp only [extractAbstractL, h1, h2, h3]

theorem extractAbstractL_none (t : List Char)
    (h1 : reSearch ABSPAT t = none)
    (h2 : reSearch STOPPAT t = none) :
    extractAbstractL t = joinSp ((pySplit t).take 300) := by
  simp only [extractAbstractL, h1, h2]

theorem takeLast_length_le {a : Type} (n : Nat) (l : List a) :
    (takeLast n l).length ≤ n := by
  simp only [takeLast, List.length_drop]
  omega

/-! ### Claim C1 — Text Acquisition OCR fallback -/

/-- Claim C1 counterexample: a document whose sanitized, stripped primary
text-layer extraction has fewer than 500 characters, yet
`extract_text_from_pdf` returns that sparse primary text, not the OCR
output — `src/app.py` lines 78-80 have no OCR fallback at all. -/
theorem C1_counterexample :
    (pyStrip (remove_illegal_chars (extract_text_with_fitz
        ⟨[("tiny text")], [("OCR PAGE TEXT")]⟩)).data).length < 500 ∧
      extract_text_from_pdf ⟨[("tiny text")], [("OCR PAGE TEXT")]⟩ ≠
        ocr_fallback_output ⟨[("tiny text")], [("OCR PAGE TEXT")]⟩ := by
  refine ⟨by decide, by decide⟩

/-- Claim C1 (amended): `extract_text_from_pdf` always returns the
sanitized primary text-layer extraction — in particular also when the
stripped sanitized text has fewer than 500 characters — and its result
does not depend on the (spec-modelled) per-page OCR texts: the code has
no OCR fallback path. -/
theorem C1_no_ocr_fallback :
    (∀ doc : PDFDocument,
      (pyStrip (remove_illegal_chars (extract_text_with_fitz doc)).data).length < 500 →
      extract_text_from_pdf doc = remove_illegal_chars (extract_text_with_fitz doc)) ∧
    (∀ p o o' : List String,
      extract_text_from_pdf ⟨p, o⟩ = extract_text_from_pdf ⟨p, o'⟩) :=
  ⟨fun _ _ => rfl, fun _ _ _ => rfl⟩

/-- Claim C1 witness: the amended statement applied to a concrete
short document. -/
theorem C1_witness :
    extract_text_from_pdf ⟨[("tiny")], [("ocr")]⟩ =
      remove_illegal_chars (extract_text_with_fitz ⟨[("tiny")], [("ocr")]⟩) :=
  C1_no_ocr_fallback.1 ⟨[("tiny")], [("ocr")]⟩ (by decide)

/-! ### Claim C2 — marker found, stop heading found -/

/-- Claim C2: whenever the `ABSTRACT` marker is found with first-match
end offset `s`, and the stop-heading pattern first matches the text
after `s` at relative offset `e`, `extract_abstract` returns the
trimmed substring `text[s : s+e]`; in particular, on
`"ABSTRACT\nThis is the abstract.\nKeywords: a, b\nIntroduction\n..."`
it returns exactly `"This is the abstract."`. -/
theorem C2_marker_stop_span :
    (∀ (t : String) (am sm : Nat × Nat),
      reSearch ABSPAT t.data = some am →
      reSearch STOPPAT (t.data.drop am.2) = some sm →
      extract_abstract t = String.mk (pyStrip ((t.data.drop am.2).take sm.1))) ∧
    extract_abstract ("ABSTRACT\nThis is the abstract.\nKeywords: a, b\nIntroduction\n...") =
      ("This is the abstract.") := by
  constructor
  · intro t am sm h1 h2
    show String.mk (extractAbstractL t.data) = _
    rw [extractAbstractL_marker_stop t.data am sm h1 h2]
  · decide

/-- Claim C2 witness: the universal part applied to the spec's example,
with the marker ending at offset 8 and the stop heading (the `Keywords`
line) at relative offset 23. -/
theorem C2_witness :
    extract_abstract ("ABSTRACT\nThis is the abstract.\nKeywords: a, b\nIntroduction\n...") =
      String.mk (pyStrip
        ((("ABSTRACT\nThis is the abstract.\nKeywords: a, b\nIntroduction\n...").data.drop 8).take 23)) :=
  C2_marker_stop_span.1 _ (0, 8) (23, 37) (by decide) (by decide)

/-! ### Claim C3 — non-empty output -/

/-- Claim C3 counterexample: `" "` is a non-empty CleanText, yet
`extract_abstract " "` is the empty string, refuting "the empty string
is possible only if CleanText is empty". -/
theorem C3_counterexample :
    (" " : String) ≠ ("") ∧ extract_abstract (" ") = ("") := by
  refine ⟨by decide, by decide⟩

/-- Claim C3 (amended): `extract_abstract` is total and always returns a
(possibly empty) string; it returns the empty string on every
whitespace-only CleanText — in particular on the empty CleanText — so an
empty AbstractSpan is possible also for non-empty inputs. -/
theorem C3_whitespace_empty (t : String)
    (h : ∀ c ∈ t.data, pyIsSpace c = true) : extract_abstract t = ("") := by
  show String.mk (extractAbstractL t.data) = _
  rw [extractAbstractL_none t.data (reSearch_ABSPAT_allspace t.data h)
    (reSearch_STOPPAT_allspace t.data h),
    show pySplit t.data = [] from pySplitF_allspace t.data.length t.data h]
  decide

/-- Claim C3 witness: the amended statement applied to a concrete
whitespace-only string. -/
theorem C3_witness : extract_abstract ("\n\t ") = ("") :=
  C3_whitespace_empty ("\n\t ") (by decide)

/-! ### Claim C4 — no marker, stop heading found -/

/-- Claim C4 counterexample: in `"para1\n \npara2\nIntroduction\n"` there
is no `ABSTRACT` marker, the stop heading starts at offset 14, and the
right-trimmed prefix `"para1\n \npara2"` contains no two consecutive
newlines — so the claim, as stated, predicts the last-300-words fallback
`"para1 para2"` — yet the code's `\n\s*\n` boundary does match the
whitespace-only gap and `extract_abstract` returns `"para2"`. -/
theorem C4_counterexample :
    reSearch ABSPAT ("para1\n \npara2\nIntroduction\n").data = none ∧
    (reSearch STOPPAT ("para1\n \npara2\nIntroduction\n").data).map Prod.fst = some 14 ∧
    specDoubleNewline (pyRstrip (("para1\n \npara2\nIntroduction\n").data.take 14)) = false ∧
    extract_abstract ("para1\n \npara2\nIntroduction\n") = ("para2") ∧
    ("para2" : String) ≠
      String.mk (joinSp (takeLast 300
        (pySplit (pyRstrip (("para1\n \npara2\nIntroduction\n").data.take 14))))) := by
  refine ⟨by decide, by decide, by decide, by decide, by decide⟩

/-- Claim C4 (amended): with no `ABSTRACT` marker and the stop heading
first matching at offset `e`, `extract_abstract` right-trims the prefix
`text[:e]`; if the prefix contains a blank-line boundary in the code's
sense — the regex `\n\s*\n`, i.e. a newline, optional whitespace, then a
newline (not necessarily two *consecutive* newlines) — it returns the
trimmed text after the end of the last such boundary (the last
paragraph); otherwise the last 300 whitespace-delimited words of the
prefix.  In particular, a blank-line-separated paragraph immediately
preceding `Introduction` is returned exactly. -/
theorem C4_no_marker_stop :
    (∀ (t : String) (sm : Nat × Nat),
      reSearch ABSPAT t.data = none →
      reSearch STOPPAT t.data = some sm →
      (∀ k : Nat, lastBlankEnd (pyRstrip (t.data.take sm.1)) = some k →
        extract_abstract t =
          String.mk (pyStrip ((pyRstrip (t.data.take sm.1)).drop k))) ∧
      (lastBlankEnd (pyRstrip (t.data.take sm.1)) = none →
        extract_abstract t =
          String.mk (joinSp (takeLast 300 (pySplit (pyRstrip (t.data.take sm.1))))))) ∧
    extract_abstract ("First paragraph.\n\nSecond paragraph here.\nIntroduction\nBody text.") =
      ("Second paragraph here.") := by
  constructor
  · intro t sm h1 h2
    constructor
    · intro k hk
      show String.mk (extractAbstractL t.data) = _
      rw [extractAbstractL_noMarker_para t.data sm k h1 h2 hk]
    · intro hk
      show String.mk (extractAbstractL t.data) = _
      rw [extractAbstractL_noMarker_words t.data sm h1 h2 hk]
  · decide

/-- Claim C4 witness: the universal part applied to the paragraph
example (stop heading at offset 41, last blank-line boundary ending at
offset 18 of the right-trimmed prefix). -/
theorem C4_witness :
    extract_abstract ("First paragraph.\n\nSecond paragraph here.\nIntroduction\nBody text.") =
      String.mk (pyStrip ((pyRstrip
        (("First paragraph.\n\nSecond paragraph here.\nIntroduction\nBody text.").data.take 41)).drop 18)) :=
  (C4_no_marker_stop.1 _ (41, 53) (by decide) (by decide)).1 18 (by decide)

/-! ### Claim C5 — no marker, no stop heading -/

/-- Claim C5: with neither an `ABSTRACT` marker nor any stop heading,
`extract_abstract` returns the first 300 whitespace-delimited words of
the entire text, joined by single spaces. -/
theorem C5_first_words :
    (∀ t : String,
      reSearch ABSPAT t.data = none →
      reSearch STOPPAT t.data = none →
      extract_abstract t = String.mk (joinSp ((pySplit t.data).take 300))) ∧
    extract_abstract ("Short document with no markers.") =
      ("Short document with no markers.") := by
  constructor
  · intro t h1 h2
    show String.mk (extractAbstractL t.data) = _
    rw [extractAbstractL_none t.data h1 h2]
  · decide

/-- Claim C5 witness: the universal part applied to a concrete
marker-free text. -/
theorem C5_witness :
    extract_abstract ("plain words only") =
      String.mk (joinSp ((pySplit ("plain words only").data).take 300)) :=
  C5_first_words.1 _ (by decide) (by decide)

/-! ### Claim C6 — 300-word cap on the unbounded branches -/

/-- Claim C6: on every branch where no stop heading bounds the result —
marker found but no stop heading after it, no marker and no stop heading
at all, and the no-blank-line last-words fallback — the returned
string's whitespace-delimited word count is at most 300. -/
theorem C6_word_cap (t : String)
    (h : (∃ am : Nat × Nat, reSearch ABSPAT t.data = some am ∧
            reSearch STOPPAT (t.data.drop am.2) = none) ∨
         (reSearch ABSPAT t.data = none ∧
            ∃ sm : Nat × Nat, reSearch STOPPAT t.data = some sm ∧
              lastBlankEnd (pyRstrip (t.data.take sm.1)) = none) ∨
         (reSearch ABSPAT t.data = none ∧ reSearch STOPPAT t.data = none)) :
    wordCount (extract_abstract t) ≤ 300 := by
  rcases h with ⟨am, h1, h2⟩ | ⟨h1, sm, h2, h3⟩ | ⟨h1, h2⟩
  · have hgood : ∀ w ∈ (pySplit (t.data.drop am.2)).take 300,
        w ≠ [] ∧ ∀ c ∈ w, pyIsSpace c = false :=
      fun w hw => pySplit_good _ w (List.take_subset _ _ hw)
    show (pySplit (extractAbstractL t.data)).length ≤ 300
    rw [extractAbstractL_marker_words t.data am h1 h2, pySplit_joinSp _ hgood]
    exact List.length_take_le _ _
  · have hgood : ∀ w ∈ takeLast 300 (pySplit (pyRstrip (t.data.take sm.1))),
        w ≠ [] ∧ ∀ c ∈ w, pyIsSpace c = false :=
      fun w hw => pySplit_good _ w (List.drop_subset _ _ hw)
    show (pySplit (extractAbstractL t.data)).length ≤ 300
    rw [extractAbstractL_noMarker_words t.data sm h1 h2 h3, pySplit_joinSp _ hgood]
    exact takeLast_length_le _ _
  · have hgood : ∀ w ∈ (pySplit t.data).take 300,
        w ≠ [] ∧ ∀ c ∈ w, pyIsSpace c = false :=
      fun w hw => pySplit_good _ w (List.take_subset _ _ hw)
    show (pySplit (extractAbstractL t.data)).length ≤ 300
    rw [extractAbstractL_none t.data h1 h2, pySplit_joinSp _ hgood]
    exact List.length_take_le _ _

/-- Claim C6 witness: the cap applied to a marker-found, no-stop-heading
document. -/
theorem C6_witness : wordCount (extract_abstract ("ABSTRACT tail words")) ≤ 300 :=
  C6_word_cap _ (Or.inl ⟨(0, 8), by decide, by decide⟩)

/-! ### Claim C7 — sanitizer removes exactly the illegal set -/

/-- Claim C7: `remove_illegal_chars` is total; its output contains no
character of the illegal set, is an order-preserving subsequence of the
input, keeps every occurrence of every legal character, and is no longer
than the input. -/
theorem C7_sanitize (s : String) :
    (∀ c ∈ (remove_illegal_chars s).data, isIllegalChar c = false) ∧
    List.Sublist (remove_illegal_chars s).data s.data ∧
    (∀ c : Char, isIllegalChar c = false →
      (remove_illegal_chars s).data.count c = s.data.count c) ∧
    (remove_illegal_chars s).length ≤ s.length := by
  refine ⟨?_, ?_, ?_, ?_⟩
  · intro c hc
    simpa using (List.mem_filter.mp hc).2
  · exact List.filter_sublist s.data
  · intro c hc
    exact List.count_filter (by simp [hc])
  · exact List.length_filter_le _ _

/-- Claim C7 witness: count preservation applied to a concrete string
containing an illegal character. -/
theorem C7_witness :
    (remove_illegal_chars ("ab\x00ca")).data.count 'a' = ("ab\x00ca").data.count 'a' :=
  (C7_sanitize ("ab\x00ca")).2.2.1 'a' (by decide)

/-! ### Claim C8 — sanitizer idempotence -/

/-- Claim C8: `remove_illegal_chars` is idempotent. -/
theorem C8_sanitize_idempotent (s : String) :
    remove_illegal_chars (remove_illegal_chars s) = remove_illegal_chars s := by
  show String.mk _ = String.mk _
  congr 1
  exact List.filter_eq_self.mpr (fun a ha => (List.mem_filter.mp ha).2)

/-! ### Claim C9 — classifier failure handling -/

/-- Claim C9: the classification adapter never propagates a failure: on
an exception (network error) and on any non-200 status it returns the
empty mapping. -/
theorem C9_classifier_failure :
    classify_with_aurora .exn = [] ∧
    (∀ r : AuroraResponse, r.status_code ≠ 200 →
      classify_with_aurora (.ok r) = []) := by
  refine ⟨rfl, ?_⟩
  intro r h
  show (if r.status_code = 200 then _ else []) = []
  rw [if_neg h]

/-- Claim C9 witness: a 500 response with a non-trivial body yields the
empty mapping. -/
theorem C9_witness :
    classify_with_aurora (.ok ⟨500, [⟨("Goal 7"), 9 / 10⟩]⟩) = [] :=
  C9_classifier_failure.2 ⟨500, [⟨("Goal 7"), 9 / 10⟩]⟩ (by decide)

/-! ### Claim C10 — result is its own trim -/

/-- Claim C10: for every input, the string returned by
`extract_abstract` has no leading or trailing whitespace: it equals its
own `strip()`. -/
theorem C10_no_surrounding_whitespace (t : String) :
    extract_abstract t = String.mk (pyStrip (extract_abstract t).data) := by
  show String.mk (extractAbstractL t.data) = String.mk (pyStrip (extractAbstractL t.data))
  congr 1
  cases h1 : reSearch ABSPAT t.data with
  | some am =>
    cases h2 : reSearch STOPPAT (t.data.drop am.2) with
    | some sm =>
      rw [extractAbstractL_marker_stop t.data am sm h1 h2]
      exact (pyStrip_pyStrip _).symm
    | none =>
      rw [extractAbstractL_marker_words t.data am h1 h2]
      exact (pyStrip_joinSp _
        (fun w hw => pySplit_good _ w (List.take_subset _ _ hw))).symm
  | none =>
    cases h2 : reSearch STOPPAT t.data with
    | some sm =>
      cases h3 : lastBlankEnd (pyRstrip (t.data.take sm.1)) with
      | some k =>
        rw [extractAbstractL_noMarker_para t.data sm k h1 h2 h3]
        exact (pyStrip_pyStrip _).symm
      | none =>
        rw [extractAbstractL_noMarker_words t.data sm h1 h2 h3]
        exact (pyStrip_joinSp _
          (fun w hw => pySplit_good _ w (List.drop_subset _ _ hw))).symm
    | none =>
      rw [extractAbstractL_none t.data h1 h2]
      exact (pyStrip_joinSp _
        (fun w hw => pySplit_good _ w (List.take_subset _ _ hw))).symm

end Smart
